import Mathlib

/-!
Verification of the expectrl session layer: a shallow embedding of the
expect engine, needle matching, `Found` captures, the write side of a
session (`send`, `send_line`, `send_control`) and the sync/async
`PtySession` dispatch, together with theorems settling the specified
properties.

Bytes are modelled as `Nat` (their ASCII value), buffers as `List Nat`.
The child's output is modelled as a script of pull outcomes: each entry is
what one `pull` on the non-blocking stream would produce.
-/

namespace Expectrl

/-- ASCII bytes of a string literal, for readable concrete buffers. -/
def asciiOf (s : String) : List Nat :=
  s.toList.map Char.toNat

/-- Modelled from the spec: the Needle data model (spec section 3).
A polymorphic matcher: literal bytes, a byte-count threshold, end-of-file,
or a composed alternative.  The regex variant is out of the claims'
scope and is omitted; `Any` composes arbitrary sub-needles.
(The Needle implementation itself is not under src/.) -/
inductive Needle where
  | bytes (s : List Nat)
  | nbytes (k : Nat)
  | eofN
  | anyN (ns : List Needle)

/-- Modelled from the spec: every occurrence of the literal byte-string
`s` in `buf`, as `(start, start + length)` ranges, in increasing start
order. -/
def occurrences (s buf : List Nat) : List (Nat × Nat) :=
  (List.range (buf.length + 1)).filterMap
    (fun i => if s.isPrefixOf (buf.drop i) then some (i, i + s.length) else none)

/-- Stable insertion for sorting match ranges by start: a new range goes
before the first existing range whose start is at least as large, so that
ranges with equal starts keep their original relative order. -/
def insertByStart (p : Nat × Nat) : List (Nat × Nat) → List (Nat × Nat)
  | [] => [p]
  | q :: qs => if p.1 ≤ q.1 then p :: q :: qs else q :: insertByStart p qs

/-- Stable sort of match ranges by start position. -/
def sortByStart : List (Nat × Nat) → List (Nat × Nat)
  | [] => []
  | p :: ps => insertByStart p (sortByStart ps)

mutual

/-- Modelled from the spec: `needle.check(buf, eof)` (spec sections 3
and 4.D).  `Bytes(s)` matches every occurrence of `s`; `NBytes(n)`
matches the first `n` bytes iff the buffer is long enough; `Eof` matches
the whole buffer iff the eof flag is set; `Any` merges the sub-needles'
matches sorted by start, ties broken by declaration order.
(The Needle implementation itself is not under src/.) -/
def needleCheck (buf : List Nat) (e : Bool) : Needle → List (Nat × Nat)
  | .bytes s => occurrences s buf
  | .nbytes k => if k ≤ buf.length then [(0, k)] else []
  | .eofN => if e then [(0, buf.length)] else []
  | .anyN ns => sortByStart (checkAll buf e ns)

/-- The concatenation, in declaration order, of the sub-needles' matches. -/
def checkAll (buf : List Nat) (e : Bool) : List Needle → List (Nat × Nat)
  | [] => []
  | n :: ns => needleCheck buf e n ++ checkAll buf e ns

end

/-- Modelled from the spec: the `Found` (aka `Captures`) result of a
match: the buffer that was searched and the ordered list of
`(start, end)` match ranges (spec section 3).
(The Captures implementation itself is not under src/.) -/
structure Found where
  buf : List Nat
  «matches» : List (Nat × Nat)
deriving Repr, DecidableEq

/-- The bytes of `buf` from position `s` (inclusive) to `e` (exclusive). -/
def byteSlice (buf : List Nat) (s e : Nat) : List Nat :=
  (buf.take e).drop s

/-- Modelled from the spec: `before()` = `buf[0 .. matches[0].start]`. -/
def Found.before (f : Found) : List Nat :=
  match f.«matches» with
  | [] => []
  | (s, _) :: _ => f.buf.take s

/-- Modelled from the spec: `first()` = `buf[matches[0].start .. matches[0].end]`. -/
def Found.firstM (f : Found) : List Nat :=
  match f.«matches» with
  | [] => []
  | (s, e) :: _ => (f.buf.take e).drop s

/-- Modelled from the spec: `get(i)` = the bytes of the i-th match. -/
def Found.get (f : Found) (i : Nat) : Option (List Nat) :=
  (f.«matches».get? i).map (fun p => (f.buf.take p.2).drop p.1)

/-- Modelled from the spec: `is_empty()` holds iff there are zero matches. -/
def Found.isEmptyF (f : Found) : Bool :=
  f.«matches».isEmpty

/-- The consume cut of a match list: the end of the first match
(`matches[0].end`), or 0 when there is no match. -/
def cutOf : List (Nat × Nat) → Nat
  | [] => 0
  | (_, e) :: _ => e

/-- Modelled from the spec: the outcome of one `pull(deadline)` on the
non-blocking stream (spec section 4.B): some bytes were appended, end of
file was observed, or the deadline expired. -/
inductive PullResult where
  | bytes (bs : List Nat)
  | eofReached
  | timedOut
deriving Repr, DecidableEq

/-- Modelled from the spec: the state of the buffered stream the expect
engine drives (spec section 4.B): the FIFO lookahead buffer, the
`last_pull_was_eof` flag, and the script of outcomes the future pulls
would produce.  (The Stream implementation itself is not under src/.) -/
structure StreamState where
  lookahead : List Nat
  eofFlag : Bool
  script : List PullResult
deriving Repr, DecidableEq

/-- The typed errors of the engine (spec section 7): end of file before a
match, expect deadline elapsed, or an OS-level I/O failure. -/
inductive EngineError where
  | eofErr
  | timeoutErr
  | ioFail
deriving Repr, DecidableEq

/-- Modelled from the spec: the expect loop (spec section 4.E).  Each
iteration checks the needle against the current lookahead with the
current eof flag; a non-empty match list forms a `Found`, consumes
`matches[0].end` bytes and returns; on an eof flag with no match the
engine fails with `Eof`; otherwise one pull is taken from the script: a
zero-byte pull is an I/O bug, fresh bytes extend the buffer, an observed
end of file sets the eof flag for the next iteration, and a timed-out
pull (or an exhausted script, standing for a deadline that has passed)
fails with `ExpectTimeout`.  (The engine implementation itself is not
under src/.) -/
def expectLoop (n : Needle) : List PullResult → List Nat → Bool →
    Except EngineError Found × StreamState
  | [], buf, eof =>
    match needleCheck buf eof n with
    | r :: rs => (.ok ⟨buf, r :: rs⟩, ⟨buf.drop (cutOf (r :: rs)), eof, []⟩)
    | [] =>
      if eof then (.error .eofErr, ⟨buf, eof, []⟩)
      else (.error .timeoutErr, ⟨buf, eof, []⟩)
  | p :: rest, buf, eof =>
    match needleCheck buf eof n with
    | r :: rs => (.ok ⟨buf, r :: rs⟩, ⟨buf.drop (cutOf (r :: rs)), eof, p :: rest⟩)
    | [] =>
      if eof then (.error .eofErr, ⟨buf, eof, p :: rest⟩)
      else
        match p with
        | .bytes [] => (.error .ioFail, ⟨buf, eof, rest⟩)
        | .bytes (b :: bs) => expectLoop n rest (buf ++ b :: bs) eof
        | .eofReached => expectLoop n rest buf true
        | .timedOut => (.error .timeoutErr, ⟨buf, eof, rest⟩)

/-- `Session::expect` (src/src/session/async_session.rs, delegating to the
engine of spec section 4.E): run the expect loop on the stream state. -/
def expect_op (n : Needle) (st : StreamState) : Except EngineError Found × StreamState :=
  expectLoop n st.script st.lookahead st.eofFlag

/-- Modelled from the spec: `check` (spec section 4.E), the non-blocking
variant of `expect` delegated to by `Session::check`
(src/src/session/async_session.rs): the same loop with a zero deadline,
so at most a single pull attempt is made; when nothing matches an empty
`Found` is returned instead of an `ExpectTimeout` error, and nothing is
consumed.  (The engine implementation itself is not under src/.) -/
def check_op (n : Needle) (st : StreamState) : Except EngineError Found × StreamState :=
  match needleCheck st.lookahead st.eofFlag n with
  | r :: rs =>
    (.ok ⟨st.lookahead, r :: rs⟩,
     ⟨st.lookahead.drop (cutOf (r :: rs)), st.eofFlag, st.script⟩)
  | [] =>
    if st.eofFlag then (.error .eofErr, st)
    else
      match st.script with
      | [] => (.ok ⟨st.lookahead, []⟩, st)
      | .bytes [] :: rest => (.error .ioFail, ⟨st.lookahead, st.eofFlag, rest⟩)
      | .bytes (b :: bs) :: rest =>
        match needleCheck (st.lookahead ++ b :: bs) st.eofFlag n with
        | r :: rs =>
          (.ok ⟨st.lookahead ++ b :: bs, r :: rs⟩,
           ⟨(st.lookahead ++ b :: bs).drop (cutOf (r :: rs)), st.eofFlag, rest⟩)
        | [] => (.ok ⟨st.lookahead ++ b :: bs, []⟩, ⟨st.lookahead ++ b :: bs, st.eofFlag, rest⟩)
      | .eofReached :: rest =>
        match needleCheck st.lookahead true n with
        | r :: rs =>
          (.ok ⟨st.lookahead, r :: rs⟩,
           ⟨st.lookahead.drop (cutOf (r :: rs)), true, rest⟩)
        | [] => (.error .eofErr, ⟨st.lookahead, true, rest⟩)
      | .timedOut :: rest => (.ok ⟨st.lookahead, []⟩, ⟨st.lookahead, st.eofFlag, rest⟩)

/-- Modelled from the spec: `is_matched` (spec section 4.E), delegated to
by `Session::is_matched` (src/src/session/async_session.rs): run
`needle.check(stream.peek(), eof)` with no pulls, return a boolean, never
consume.  (The engine implementation itself is not under src/.) -/
def is_matched_op (n : Needle) (st : StreamState) : Bool × StreamState :=
  (!(needleCheck st.lookahead st.eofFlag n).isEmpty, st)

/-- The write half of a session: the bytes written to the child's stdin
so far, and whether the last operation ended with a flush. -/
structure WriteState where
  written : List Nat
  flushed : Bool
deriving Repr, DecidableEq

/-- The platform line ending used by `send_line`
(src/src/session/async_session.rs): CRLF on windows, LF elsewhere. -/
def lineEnding (windows : Bool) : List Nat :=
  if windows then [13, 10] else [10]

/-- `Session::send` (src/src/session/async_session.rs): write the bytes
verbatim to the child's stdin; no flush. -/
def send (s : List Nat) (w : WriteState) : WriteState :=
  { written := w.written ++ s, flushed := false }

/-- `Session::send_line` (src/src/session/async_session.rs): write the
text, then the platform line ending, then flush. -/
def send_line (windows : Bool) (s : List Nat) (w : WriteState) : WriteState :=
  let w1 : WriteState := { written := w.written ++ s, flushed := false }
  let w2 : WriteState := { written := w1.written ++ lineEnding windows, flushed := false }
  { w2 with flushed := true }

/-- Modelled from the spec: parse a `char` into the byte of a control
code (spec sections 3 and 6): letters `A`..`Z` map to `^A`..`^Z`
(bytes 1..26) and lowercase letters map to the same codes; anything else
is rejected.  (The ControlCode implementation itself is not under
src/.) -/
def parseCtlChar (c : Nat) : Option Nat :=
  if 65 ≤ c ∧ c ≤ 90 then some (c - 64)
  else if 97 ≤ c ∧ c ≤ 122 then some (c - 96)
  else none

/-- Modelled from the spec: the fixed table of named control codes
(spec section 3): named keys map to their ASCII control byte. -/
def namedCodes : List (List Nat × Nat) :=
  [ (asciiOf "EndOfText", 3)
  , (asciiOf "EOT", 4)
  , (asciiOf "Backspace", 8)
  , (asciiOf "Enter", 13)
  , (asciiOf "Escape", 27) ]

/-- Look a byte-string up in the named control-code table. -/
def lookupNamed (s : List Nat) : List (List Nat × Nat) → Option Nat
  | [] => none
  | (k, v) :: rest => if s = k then some v else lookupNamed s rest

/-- Modelled from the spec: parse a `&str` into the byte of a control
code (spec section 6): a single letter, the `"^X"` caret form, or a name
from the fixed table.  (The ControlCode implementation itself is not
under src/.) -/
def parseCtlStr (s : List Nat) : Option Nat :=
  match s with
  | [c] => parseCtlChar c
  | [a, c] => if a = 94 then parseCtlChar c else lookupNamed [a, c] namedCodes
  | _ => lookupNamed s namedCodes

/-- The three forms `send_control` accepts: a `char`, a `&str`, or the
`ControlCode` enum directly (carried as its byte, which is at most 31). -/
inductive ControlInput where
  | ch (c : Nat)
  | str (s : List Nat)
  | code (b : Fin 32)
deriving Repr, DecidableEq

/-- Modelled from the spec: the `TryInto<ControlCode>` conversion used by
`send_control` (spec sections 3 and 6): a `char` or `&str` is parsed, the
enum converts to its own byte.  (The ControlCode implementation itself is
not under src/.) -/
def tryIntoControlCode : ControlInput → Option Nat
  | .ch c => parseCtlChar c
  | .str s => parseCtlStr s
  | .code b => some b.val

/-- `Session::send_control` (src/src/session/async_session.rs): convert
the input to a `ControlCode`; on failure return a parse error having
written nothing, on success write exactly that single byte. -/
def send_control (inp : ControlInput) (w : WriteState) : Except Unit Unit × WriteState :=
  match tryIntoControlCode inp with
  | none => (.error (), w)
  | some b => (.ok (), { written := w.written ++ [b], flushed := w.flushed })

/-! ### Raw stream access (read / write / fill_buf / consume)

`Session` implements raw read/write/buffered-read so users may bypass the
engine (src/src/session/async_session.rs, the `AsyncRead`, `AsyncWrite`
and `AsyncBufRead` impls, all delegating to the stream). -/

/-- Modelled from the spec: `fill_buf` on the buffered stream — return
the lookahead if it is non-empty, otherwise make one pull attempt
(spec sections 4.B and 4.F). -/
def fillBufA (st : StreamState) : List Nat × StreamState :=
  match st.lookahead with
  | b :: bs => (b :: bs, st)
  | [] =>
    match st.script with
    | .bytes bs :: rest => (bs, ⟨bs, st.eofFlag, rest⟩)
    | .eofReached :: rest => ([], ⟨[], true, rest⟩)
    | _ => ([], st)

/-- Modelled from the spec: `consume(n)` — drop the first `n` bytes of
the lookahead (spec section 4.B). -/
def consumeA (amt : Nat) (st : StreamState) : StreamState :=
  { st with lookahead := st.lookahead.drop amt }

/-- Modelled from the spec: a raw `read` of up to `k` bytes — fill the
buffer, hand out at most `k` bytes and consume exactly those. -/
def readA (k : Nat) (st : StreamState) : List Nat × StreamState :=
  let (buf, st1) := fillBufA st
  let r := buf.take k
  (r, consumeA r.length st1)

/-- A raw `write` on the session (the `AsyncWrite` impl of
src/src/session/async_session.rs): append the bytes to the child's
stdin. -/
def writeBytes (bs : List Nat) (w : WriteState) : WriteState :=
  { written := w.written ++ bs, flushed := false }

/-! ### The sync flavor, modelled from the spec

The sync `Session` is not under src/ (only its async twin is); the spec
states that both flavors have identical external semantics and that the
expect loop is identical in both (spec sections 4.F, 5 and 9).  The
definitions below embed the sync flavor from those words; the
equivalence theorem compares them with the async embedding above. -/

/-- Modelled from the spec: the sync `send` — write verbatim, no
flush (spec section 4.F). -/
def sync_send (s : List Nat) (w : WriteState) : WriteState :=
  { written := w.written ++ s, flushed := false }

/-- Modelled from the spec: the sync `send_line` — write text then the
platform line ending, then flush (spec section 4.F). -/
def sync_send_line (windows : Bool) (s : List Nat) (w : WriteState) : WriteState :=
  { written := w.written ++ (s ++ lineEnding windows), flushed := true }

/-- Modelled from the spec: the sync expect loop (spec section 4.E; by
section 9 the loop is identical in both flavors, the flavors differing
only in how a pull waits). -/
def sync_expectLoop (n : Needle) : List PullResult → List Nat → Bool →
    Except EngineError Found × StreamState
  | [], buf, eof =>
    match needleCheck buf eof n with
    | r :: rs => (.ok ⟨buf, r :: rs⟩, ⟨buf.drop (cutOf (r :: rs)), eof, []⟩)
    | [] =>
      if eof then (.error .eofErr, ⟨buf, eof, []⟩)
      else (.error .timeoutErr, ⟨buf, eof, []⟩)
  | p :: rest, buf, eof =>
    match needleCheck buf eof n with
    | r :: rs => (.ok ⟨buf, r :: rs⟩, ⟨buf.drop (cutOf (r :: rs)), eof, p :: rest⟩)
    | [] =>
      if eof then (.error .eofErr, ⟨buf, eof, p :: rest⟩)
      else
        match p with
        | .bytes [] => (.error .ioFail, ⟨buf, eof, rest⟩)
        | .bytes (b :: bs) => sync_expectLoop n rest (buf ++ b :: bs) eof
        | .eofReached => sync_expectLoop n rest buf true
        | .timedOut => (.error .timeoutErr, ⟨buf, eof, rest⟩)

/-- Modelled from the spec: the sync `expect` over the stream state. -/
def sync_expect_op (n : Needle) (st : StreamState) :
    Except EngineError Found × StreamState :=
  sync_expectLoop n st.script st.lookahead st.eofFlag

/-- Modelled from the spec: the sync `check` — the same loop with a zero
deadline and a single pull attempt (spec section 4.E). -/
def sync_check_op (n : Needle) (st : StreamState) :
    Except EngineError Found × StreamState :=
  match needleCheck st.lookahead st.eofFlag n with
  | r :: rs =>
    (.ok ⟨st.lookahead, r :: rs⟩,
     ⟨st.lookahead.drop (cutOf (r :: rs)), st.eofFlag, st.script⟩)
  | [] =>
    if st.eofFlag then (.error .eofErr, st)
    else
      match st.script with
      | [] => (.ok ⟨st.lookahead, []⟩, st)
      | .bytes [] :: rest => (.error .ioFail, ⟨st.lookahead, st.eofFlag, rest⟩)
      | .bytes (b :: bs) :: rest =>
        match needleCheck (st.lookahead ++ b :: bs) st.eofFlag n with
        | r :: rs =>
          (.ok ⟨st.lookahead ++ b :: bs, r :: rs⟩,
           ⟨(st.lookahead ++ b :: bs).drop (cutOf (r :: rs)), st.eofFlag, rest⟩)
        | [] => (.ok ⟨st.lookahead ++ b :: bs, []⟩, ⟨st.lookahead ++ b :: bs, st.eofFlag, rest⟩)
      | .eofReached :: rest =>
        match needleCheck st.lookahead true n with
        | r :: rs =>
          (.ok ⟨st.lookahead, r :: rs⟩,
           ⟨st.lookahead.drop (cutOf (r :: rs)), true, rest⟩)
        | [] => (.error .eofErr, ⟨st.lookahead, true, rest⟩)
      | .timedOut :: rest => (.ok ⟨st.lookahead, []⟩, ⟨st.lookahead, st.eofFlag, rest⟩)

/-- Modelled from the spec: the sync `fill_buf` (spec sections 4.B and
4.F). -/
def sync_fillBuf (st : StreamState) : List Nat × StreamState :=
  match st.lookahead with
  | b :: bs => (b :: bs, st)
  | [] =>
    match st.script with
    | .bytes bs :: rest => (bs, ⟨bs, st.eofFlag, rest⟩)
    | .eofReached :: rest => ([], ⟨[], true, rest⟩)
    | _ => ([], st)

/-- Modelled from the spec: the sync `consume(n)` (spec section 4.B). -/
def sync_consume (amt : Nat) (st : StreamState) : StreamState :=
  { st with lookahead := st.lookahead.drop amt }

/-- Modelled from the spec: the sync raw `read` of up to `k` bytes. -/
def sync_read (k : Nat) (st : StreamState) : List Nat × StreamState :=
  let (buf, st1) := sync_fillBuf st
  let r := buf.take k
  (r, sync_consume r.length st1)

/-- Modelled from the spec: the sync raw `write`. -/
def sync_writeBytes (bs : List Nat) (w : WriteState) : WriteState :=
  { written := w.written ++ bs, flushed := false }

/-! ### The PtySession dispatch (src/src/session/pty_session.rs) -/

/-- The session state a `PtySession` arm wraps: the read-side stream
state and the write-side state.  The `Logged` arm's log stream is a
transparent tee (spec section 2, component C), so it carries the same
observable state. -/
structure SessionSt where
  stream : StreamState
  out : WriteState
deriving Repr, DecidableEq

/-- `sync::PtySession` (src/src/session/pty_session.rs): a default pty
session or a session logged to stdout. -/
inductive PtySessionSync where
  | dflt (s : SessionSt)
  | logged (s : SessionSt)
deriving Repr, DecidableEq

/-- `async_pty::PtySession` (src/src/session/pty_session.rs): a default
pty session or a session logged to stdout. -/
inductive PtySessionAsync where
  | dflt (s : SessionSt)
  | logged (s : SessionSt)
deriving Repr, DecidableEq

/-- The observable session state of a sync `PtySession`. -/
def PtySessionSync.stateOf : PtySessionSync → SessionSt
  | .dflt s => s
  | .logged s => s

/-- The observable session state of an async `PtySession`. -/
def PtySessionAsync.stateOf : PtySessionAsync → SessionSt
  | .dflt s => s
  | .logged s => s

/-- `sync::PtySession::send` dispatch (src/src/session/pty_session.rs). -/
def PtySessionSync.sendP : PtySessionSync → List Nat → PtySessionSync
  | .dflt s, bs => .dflt { s with out := sync_send bs s.out }
  | .logged s, bs => .logged { s with out := sync_send bs s.out }

/-- `async_pty::PtySession::send` dispatch (src/src/session/pty_session.rs). -/
def PtySessionAsync.sendP : PtySessionAsync → List Nat → PtySessionAsync
  | .dflt s, bs => .dflt { s with out := send bs s.out }
  | .logged s, bs => .logged { s with out := send bs s.out }

/-- `sync::PtySession::send_line` dispatch (src/src/session/pty_session.rs). -/
def PtySessionSync.sendLineP (windows : Bool) : PtySessionSync → List Nat → PtySessionSync
  | .dflt s, bs => .dflt { s with out := sync_send_line windows bs s.out }
  | .logged s, bs => .logged { s with out := sync_send_line windows bs s.out }

/-- `async_pty::PtySession::send_line` dispatch (src/src/session/pty_session.rs). -/
def PtySessionAsync.sendLineP (windows : Bool) : PtySessionAsync → List Nat → PtySessionAsync
  | .dflt s, bs => .dflt { s with out := send_line windows bs s.out }
  | .logged s, bs => .logged { s with out := send_line windows bs s.out }

/-- `sync::PtySession::expect` dispatch (src/src/session/pty_session.rs). -/
def PtySessionSync.expectP (n : Needle) :
    PtySessionSync → Except EngineError Found × PtySessionSync
  | .dflt s =>
    let (r, st') := sync_expect_op n s.stream
    (r, .dflt { s with stream := st' })
  | .logged s =>
    let (r, st') := sync_expect_op n s.stream
    (r, .logged { s with stream := st' })

/-- `async_pty::PtySession::expect` dispatch (src/src/session/pty_session.rs). -/
def PtySessionAsync.expectP (n : Needle) :
    PtySessionAsync → Except EngineError Found × PtySessionAsync
  | .dflt s =>
    let (r, st') := expect_op n s.stream
    (r, .dflt { s with stream := st' })
  | .logged s =>
    let (r, st') := expect_op n s.stream
    (r, .logged { s with stream := st' })

/-- `sync::PtySession`'s `Read`, `BufRead` and `Write` dispatch
(src/src/session/pty_session.rs). -/
def PtySessionSync.readP (k : Nat) : PtySessionSync → List Nat × PtySessionSync
  | .dflt s =>
    let (r, st') := sync_read k s.stream
    (r, .dflt { s with stream := st' })
  | .logged s =>
    let (r, st') := sync_read k s.stream
    (r, .logged { s with stream := st' })

/-- `async_pty::PtySession`'s `AsyncRead` dispatch
(src/src/session/pty_session.rs). -/
def PtySessionAsync.readP (k : Nat) : PtySessionAsync → List Nat × PtySessionAsync
  | .dflt s =>
    let (r, st') := readA k s.stream
    (r, .dflt { s with stream := st' })
  | .logged s =>
    let (r, st') := readA k s.stream
    (r, .logged { s with stream := st' })

/-- `sync::PtySession`'s `BufRead::fill_buf` dispatch. -/
def PtySessionSync.fillBufP : PtySessionSync → List Nat × PtySessionSync
  | .dflt s =>
    let (r, st') := sync_fillBuf s.stream
    (r, .dflt { s with stream := st' })
  | .logged s =>
    let (r, st') := sync_fillBuf s.stream
    (r, .logged { s with stream := st' })

/-- `async_pty::PtySession`'s `AsyncBufRead::poll_fill_buf` dispatch. -/
def PtySessionAsync.fillBufP : PtySessionAsync → List Nat × PtySessionAsync
  | .dflt s =>
    let (r, st') := fillBufA s.stream
    (r, .dflt { s with stream := st' })
  | .logged s =>
    let (r, st') := fillBufA s.stream
    (r, .logged { s with stream := st' })

/-- `sync::PtySession`'s `BufRead::consume` dispatch. -/
def PtySessionSync.consumeP (amt : Nat) : PtySessionSync → PtySessionSync
  | .dflt s => .dflt { s with stream := sync_consume amt s.stream }
  | .logged s => .logged { s with stream := sync_consume amt s.stream }

/-- `async_pty::PtySession`'s `AsyncBufRead::consume` dispatch. -/
def PtySessionAsync.consumeP (amt : Nat) : PtySessionAsync → PtySessionAsync
  | .dflt s => .dflt { s with stream := consumeA amt s.stream }
  | .logged s => .logged { s with stream := consumeA amt s.stream }

/-- `sync::PtySession`'s `Write::write` dispatch. -/
def PtySessionSync.writeP : PtySessionSync → List Nat → PtySessionSync
  | .dflt s, bs => .dflt { s with out := sync_writeBytes bs s.out }
  | .logged s, bs => .logged { s with out := sync_writeBytes bs s.out }

/-- `async_pty::PtySession`'s `AsyncWrite::poll_write` dispatch. -/
def PtySessionAsync.writeP : PtySessionAsync → List Nat → PtySessionAsync
  | .dflt s, bs => .dflt { s with out := writeBytes bs s.out }
  | .logged s, bs => .logged { s with out := writeBytes bs s.out }

/-- The async `PtySession` arm holding the same session state as a sync
arm: `dflt` maps to `dflt`, `logged` to `logged`. -/
def toAsync : PtySessionSync → PtySessionAsync
  | .dflt s => .dflt s
  | .logged s => .logged s

/-! ### Sync / async agreement helpers -/

theorem sync_expectLoop_eq (n : Needle) :
    ∀ (script : List PullResult) (buf : List Nat) (eof : Bool),
      sync_expectLoop n script buf eof = expectLoop n script buf eof := by
  intro script
  induction script with
  | nil => intro buf eof; rfl
  | cons p rest ih =>
    intro buf eof
    cases hc : needleCheck buf eof n with
    | cons r rs => simp [sync_expectLoop, expectLoop, hc]
    | nil =>
      cases eof with
      | true => simp [sync_expectLoop, expectLoop, hc]
      | false =>
        cases p with
        | bytes bs =>
          cases bs with
          | nil => simp [sync_expectLoop, expectLoop, hc]
          | cons b bs2 => simp [sync_expectLoop, expectLoop, hc, ih]
        | eofReached => simp [sync_expectLoop, expectLoop, hc, ih]
        | timedOut => simp [sync_expectLoop, expectLoop, hc]

/-! ### Control-code parsing helpers -/

theorem parseCtlChar_le31 {c b : Nat} (h : parseCtlChar c = some b) : b ≤ 31 := by
  unfold parseCtlChar at h
  split at h
  · rename_i hr
    simp at h
    omega
  · split at h
    · rename_i hr
      simp at h
      omega
    · simp at h

theorem lookupNamed_le31 {s : List Nat} {b : Nat} :
    ∀ {l : List (List Nat × Nat)}, (∀ kv ∈ l, kv.2 ≤ 31) →
      lookupNamed s l = some b → b ≤ 31 := by
  intro l
  induction l with
  | nil => intro _ h; simp [lookupNamed] at h
  | cons kv rest ih =>
    intro hall h
    simp only [lookupNamed] at h
    split at h
    · simp at h
      exact h ▸ hall kv (List.mem_cons_self kv rest)
    · exact ih (fun x hx => hall x (List.mem_cons_of_mem kv hx)) h

theorem namedCodes_le31 : ∀ kv ∈ namedCodes, kv.2 ≤ 31 := by decide

theorem parseCtlStr_le31 {s : List Nat} {b : Nat} (h : parseCtlStr s = some b) : b ≤ 31 := by
  match s with
  | [] => exact lookupNamed_le31 namedCodes_le31 h
  | [c] => exact parseCtlChar_le31 h
  | [a, c] =>
    simp only [parseCtlStr] at h
    split at h
    · exact parseCtlChar_le31 h
    · exact lookupNamed_le31 namedCodes_le31 h
  | a :: c :: d :: rest => exact lookupNamed_le31 namedCodes_le31 h

theorem tryInto_le31 {inp : ControlInput} {b : Nat}
    (h : tryIntoControlCode inp = some b) : b ≤ 31 := by
  match inp with
  | .ch c => exact parseCtlChar_le31 h
  | .str s => exact parseCtlStr_le31 h
  | .code f =>
    simp only [tryIntoControlCode, Option.some.injEq] at h
    omega

/-! ### Properties of the stable sort used by `Any` -/

theorem insertByStart_perm (p : Nat × Nat) (l : List (Nat × Nat)) :
    List.Perm (insertByStart p l) (p :: l) := by
  induction l with
  | nil => simp [insertByStart]
  | cons q qs ih =>
    simp only [insertByStart]
    split
    · exact List.Perm.refl _
    · exact ((ih.cons q).trans (List.Perm.swap p q qs))

theorem sortByStart_perm (l : List (Nat × Nat)) : List.Perm (sortByStart l) l := by
  induction l with
  | nil => simp [sortByStart]
  | cons p ps ih =>
    simpa [sortByStart] using (insertByStart_perm p (sortByStart ps)).trans (ih.cons p)

theorem mem_insertByStart {q p : Nat × Nat} {l : List (Nat × Nat)} :
    q ∈ insertByStart p l ↔ q = p ∨ q ∈ l := by
  constructor
  · intro h
    have := (insertByStart_perm p l).mem_iff.mp h
    simpa using this
  · intro h
    refine (insertByStart_perm p l).mem_iff.mpr ?_
    simpa using h

theorem mem_sortByStart {q : Nat × Nat} {l : List (Nat × Nat)} :
    q ∈ sortByStart l ↔ q ∈ l :=
  (sortByStart_perm l).mem_iff

theorem pairwise_insertByStart {p : Nat × Nat} {l : List (Nat × Nat)}
    (h : l.Pairwise (fun a b => a.1 ≤ b.1)) :
    (insertByStart p l).Pairwise (fun a b => a.1 ≤ b.1) := by
  induction l with
  | nil => simp [insertByStart]
  | cons q qs ih =>
    rcases List.pairwise_cons.mp h with ⟨hq, hqs⟩
    simp only [insertByStart]
    split
    · rename_i hle
      refine List.pairwise_cons.mpr ⟨?_, h⟩
      intro b hb
      rcases List.mem_cons.mp hb with rfl | hb
      · exact hle
      · exact le_trans hle (hq b hb)
    · rename_i hgt
      refine List.pairwise_cons.mpr ⟨?_, ih hqs⟩
      intro b hb
      rcases mem_insertByStart.mp hb with rfl | hb
      · exact le_of_not_le hgt
      · exact hq b hb

theorem pairwise_sortByStart (l : List (Nat × Nat)) :
    (sortByStart l).Pairwise (fun a b => a.1 ≤ b.1) := by
  induction l with
  | nil => simp [sortByStart]
  | cons p ps ih => exact pairwise_insertByStart ih

theorem filter_insertByStart (p : Nat × Nat) (l : List (Nat × Nat)) (k : Nat) :
    (insertByStart p l).filter (fun q => q.1 == k) =
      if p.1 = k then p :: l.filter (fun q => q.1 == k)
      else l.filter (fun q => q.1 == k) := by
  induction l with
  | nil =>
    by_cases hpk : p.1 = k <;> simp [insertByStart, List.filter_cons, beq_iff_eq, hpk]
  | cons q qs ih =>
    simp only [insertByStart]
    split
    · rename_i hle
      by_cases hpk : p.1 = k <;> simp [List.filter_cons, beq_iff_eq, hpk]
    · rename_i hgt
      have hql : q.1 < p.1 := Nat.lt_of_not_le hgt
      by_cases hqk : q.1 = k
      · have hpk : p.1 ≠ k := by
          intro hp; exact absurd (hp ▸ hqk ▸ rfl : q.1 = p.1) (Nat.ne_of_lt hql)
        simp [List.filter_cons, beq_iff_eq, hqk, hpk, ih]
      · by_cases hpk : p.1 = k <;> simp [List.filter_cons, beq_iff_eq, hqk, hpk, ih]

theorem filter_sortByStart (l : List (Nat × Nat)) (k : Nat) :
    (sortByStart l).filter (fun q => q.1 == k) = l.filter (fun q => q.1 == k) := by
  induction l with
  | nil => simp [sortByStart]
  | cons p ps ih =>
    simp only [sortByStart, filter_insertByStart, ih]
    by_cases hpk : p.1 = k <;> simp [List.filter_cons, beq_iff_eq, hpk]

/-! ### Bounds on match ranges -/

theorem occurrences_bound {s buf : List Nat} {p : Nat × Nat}
    (h : p ∈ occurrences s buf) : p.1 ≤ p.2 ∧ p.2 ≤ buf.length := by
  rcases List.mem_filterMap.mp h with ⟨i, hi, hp⟩
  by_cases hpre : s.isPrefixOf (buf.drop i)
  · simp only [hpre, if_pos] at hp
    cases hp
    have hlen : s.length ≤ buf.length - i :=
      (List.length_drop i buf) ▸ (List.isPrefixOf_iff_prefix.mp hpre).length_le
    have hile : i ≤ buf.length := Nat.lt_succ_iff.mp (List.mem_range.mp hi)
    exact ⟨Nat.le_add_right _ _, by omega⟩
  · simp [hpre] at hp

mutual

theorem needleCheck_bound (n : Needle) (buf : List Nat) (e : Bool)
    (p : Nat × Nat) (h : p ∈ needleCheck buf e n) : p.1 ≤ p.2 ∧ p.2 ≤ buf.length := by
  match n with
  | .bytes s => exact occurrences_bound h
  | .nbytes k =>
    simp only [needleCheck] at h
    split at h
    · rename_i hk
      simp at h
      cases h
      exact ⟨Nat.zero_le _, hk⟩
    · simp at h
  | .eofN =>
    simp only [needleCheck] at h
    split at h
    · simp at h
      cases h
      exact ⟨Nat.zero_le _, le_rfl⟩
    · simp at h
  | .anyN ns =>
    simp only [needleCheck] at h
    exact checkAll_bound ns buf e p (mem_sortByStart.mp h)

theorem checkAll_bound (ns : List Needle) (buf : List Nat) (e : Bool)
    (p : Nat × Nat) (h : p ∈ checkAll buf e ns) : p.1 ≤ p.2 ∧ p.2 ≤ buf.length := by
  match ns with
  | [] => simp [checkAll] at h
  | n :: rest =>
    simp only [checkAll, List.mem_append] at h
    rcases h with h | h
    · exact needleCheck_bound n buf e p h
    · exact checkAll_bound rest buf e p h

end

theorem cutOf_le_length {n : Needle} {buf : List Nat} {e : Bool} {r : Nat × Nat}
    {rs : List (Nat × Nat)} (h : needleCheck buf e n = r :: rs) :
    cutOf (r :: rs) ≤ buf.length := by
  have : r ∈ needleCheck buf e n := h ▸ List.mem_cons_self r rs
  exact (needleCheck_bound n buf e r this).2

/-! ### Structural lemmas about the expect loop -/

theorem expectLoop_ok {n : Needle} :
    ∀ {script : List PullResult} {buf : List Nat} {eof : Bool} {f : Found} {st' : StreamState},
      expectLoop n script buf eof = (.ok f, st') →
      f.«matches» ≠ [] ∧ st'.lookahead = f.buf.drop (cutOf f.«matches») ∧
        cutOf f.«matches» ≤ f.buf.length := by
  intro script
  induction script with
  | nil =>
    intro buf eof f st' h
    cases hc : needleCheck buf eof n with
    | cons r rs =>
      simp only [expectLoop, hc, Prod.mk.injEq, Except.ok.injEq] at h
      obtain ⟨h1, h2⟩ := h
      subst h1
      subst h2
      exact ⟨by simp, rfl, cutOf_le_length hc⟩
    | nil => cases eof <;> simp [expectLoop, hc] at h
  | cons p rest ih =>
    intro buf eof f st' h
    cases hc : needleCheck buf eof n with
    | cons r rs =>
      simp only [expectLoop, hc, Prod.mk.injEq, Except.ok.injEq] at h
      obtain ⟨h1, h2⟩ := h
      subst h1
      subst h2
      exact ⟨by simp, rfl, cutOf_le_length hc⟩
    | nil =>
      cases eof with
      | true => simp [expectLoop, hc] at h
      | false =>
        cases p with
        | bytes bs =>
          cases bs with
          | nil => simp [expectLoop, hc] at h
          | cons b bs2 =>
            simp only [expectLoop, hc] at h
            exact ih (by simpa using h)
        | eofReached =>
          simp only [expectLoop, hc] at h
          exact ih (by simpa using h)
        | timedOut => simp [expectLoop, hc] at h

theorem expectLoop_error_extends {n : Needle} :
    ∀ {script : List PullResult} {buf : List Nat} {eof : Bool} {err : EngineError}
      {st' : StreamState},
      expectLoop n script buf eof = (.error err, st') →
      ∃ ext, st'.lookahead = buf ++ ext := by
  intro script
  induction script with
  | nil =>
    intro buf eof err st' h
    cases hc : needleCheck buf eof n with
    | cons r rs => simp [expectLoop, hc] at h
    | nil =>
      cases eof with
      | true =>
        simp [expectLoop, hc, Prod.mk.injEq] at h
        have h2 : (⟨buf, true, []⟩ : StreamState) = st' := h.2
        subst h2
        exact ⟨[], by simp⟩
      | false =>
        simp [expectLoop, hc, Prod.mk.injEq] at h
        have h2 : (⟨buf, false, []⟩ : StreamState) = st' := h.2
        subst h2
        exact ⟨[], by simp⟩
  | cons p rest ih =>
    intro buf eof err st' h
    cases hc : needleCheck buf eof n with
    | cons r rs => simp [expectLoop, hc] at h
    | nil =>
      cases eof with
      | true =>
        simp only [expectLoop, hc, Prod.mk.injEq] at h
        obtain ⟨h1, h2⟩ := by simpa using h
        subst h2
        exact ⟨[], by simp⟩
      | false =>
        cases p with
        | bytes bs =>
          cases bs with
          | nil =>
            simp only [expectLoop, hc, Prod.mk.injEq] at h
            obtain ⟨h1, h2⟩ := by simpa using h
            subst h2
            exact ⟨[], by simp⟩
          | cons b bs2 =>
            simp only [expectLoop, hc] at h
            rcases ih (by simpa using h) with ⟨ext, hext⟩
            exact ⟨b :: bs2 ++ ext, by simpa using hext⟩
        | eofReached =>
          simp only [expectLoop, hc] at h
          exact ih (by simpa using h)
        | timedOut =>
          simp only [expectLoop, hc, Prod.mk.injEq] at h
          obtain ⟨h1, h2⟩ := by simpa using h
          subst h2
          exact ⟨[], by simp⟩

theorem expectLoop_eofErr {n : Needle} :
    ∀ {script : List PullResult} {buf : List Nat} {eof : Bool} {st' : StreamState},
      expectLoop n script buf eof = (.error .eofErr, st') →
      st'.eofFlag = true ∧ needleCheck st'.lookahead true n = [] := by
  intro script
  induction script with
  | nil =>
    intro buf eof st' h
    cases hc : needleCheck buf eof n with
    | cons r rs => simp [expectLoop, hc] at h
    | nil =>
      cases eof with
      | true =>
        simp only [expectLoop, hc, Prod.mk.injEq] at h
        have h2 : (⟨buf, true, []⟩ : StreamState) = st' := by simpa using h
        subst h2
        exact ⟨rfl, hc⟩
      | false => simp [expectLoop, hc] at h
  | cons p rest ih =>
    intro buf eof st' h
    cases hc : needleCheck buf eof n with
    | cons r rs => simp [expectLoop, hc] at h
    | nil =>
      cases eof with
      | true =>
        simp only [expectLoop, hc, Prod.mk.injEq] at h
        have h2 : (⟨buf, true, p :: rest⟩ : StreamState) = st' := by simpa using h
        subst h2
        exact ⟨rfl, hc⟩
      | false =>
        cases p with
        | bytes bs =>
          cases bs with
          | nil => simp [expectLoop, hc] at h
          | cons b bs2 =>
            simp only [expectLoop, hc] at h
            exact ih (by simpa using h)
        | eofReached =>
          simp only [expectLoop, hc] at h
          exact ih (by simpa using h)
        | timedOut => simp [expectLoop, hc] at h

/-! ### Structural lemmas about the non-blocking check -/

theorem check_op_ok_nonempty {n : Needle} {st st' : StreamState} {f : Found}
    (h : check_op n st = (.ok f, st')) (hne : f.«matches» ≠ []) :
    st'.lookahead = f.buf.drop (cutOf f.«matches») ∧ cutOf f.«matches» ≤ f.buf.length := by
  obtain ⟨la, ef, sc⟩ := st
  cases hc : needleCheck la ef n with
  | cons r rs =>
    simp [check_op, hc, Prod.mk.injEq, Except.ok.injEq] at h
    obtain ⟨h1, h2⟩ := h
    subst h1
    subst h2
    exact ⟨rfl, cutOf_le_length hc⟩
  | nil =>
    cases ef with
    | true => simp [check_op, hc] at h
    | false =>
      cases sc with
      | nil =>
        simp [check_op, hc, Prod.mk.injEq, Except.ok.injEq] at h
        obtain ⟨h1, h2⟩ := h
        subst h1
        exact absurd rfl hne
      | cons p rest =>
        cases p with
        | bytes bs =>
          cases bs with
          | nil => simp [check_op, hc] at h
          | cons b bs2 =>
            cases hc2 : needleCheck (la ++ b :: bs2) false n with
            | cons r rs =>
              simp [check_op, hc, hc2, Prod.mk.injEq, Except.ok.injEq] at h
              obtain ⟨h1, h2⟩ := h
              subst h1
              subst h2
              exact ⟨rfl, cutOf_le_length hc2⟩
            | nil =>
              simp [check_op, hc, hc2, Prod.mk.injEq, Except.ok.injEq] at h
              obtain ⟨h1, h2⟩ := h
              subst h1
              exact absurd rfl hne
        | eofReached =>
          cases hc3 : needleCheck la true n with
          | cons r rs =>
            simp [check_op, hc, hc3, Prod.mk.injEq, Except.ok.injEq] at h
            obtain ⟨h1, h2⟩ := h
            subst h1
            subst h2
            exact ⟨rfl, cutOf_le_length hc3⟩
          | nil => simp [check_op, hc, hc3] at h
        | timedOut =>
          simp [check_op, hc, Prod.mk.injEq, Except.ok.injEq] at h
          obtain ⟨h1, h2⟩ := h
          subst h1
          exact absurd rfl hne

theorem check_op_ok_empty {n : Needle} {st st' : StreamState} {f : Found}
    (h : check_op n st = (.ok f, st')) (hemp : f.«matches» = []) :
    st'.lookahead = f.buf ∧ ∃ ext, f.buf = st.lookahead ++ ext := by
  obtain ⟨la, ef, sc⟩ := st
  cases hc : needleCheck la ef n with
  | cons r rs =>
    simp [check_op, hc, Prod.mk.injEq, Except.ok.injEq] at h
    obtain ⟨h1, h2⟩ := h
    subst h1
    simp at hemp
  | nil =>
    cases ef with
    | true => simp [check_op, hc] at h
    | false =>
      cases sc with
      | nil =>
        simp [check_op, hc, Prod.mk.injEq, Except.ok.injEq] at h
        obtain ⟨h1, h2⟩ := h
        subst h1
        subst h2
        exact ⟨rfl, [], by simp⟩
      | cons p rest =>
        cases p with
        | bytes bs =>
          cases bs with
          | nil => simp [check_op, hc] at h
          | cons b bs2 =>
            cases hc2 : needleCheck (la ++ b :: bs2) false n with
            | cons r rs =>
              simp [check_op, hc, hc2, Prod.mk.injEq, Except.ok.injEq] at h
              obtain ⟨h1, h2⟩ := h
              subst h1
              simp at hemp
            | nil =>
              simp [check_op, hc, hc2, Prod.mk.injEq, Except.ok.injEq] at h
              obtain ⟨h1, h2⟩ := h
              subst h1
              subst h2
              exact ⟨rfl, b :: bs2, rfl⟩
        | eofReached =>
          cases hc3 : needleCheck la true n with
          | cons r rs =>
            simp [check_op, hc, hc3, Prod.mk.injEq, Except.ok.injEq] at h
            obtain ⟨h1, h2⟩ := h
            subst h1
            simp at hemp
          | nil => simp [check_op, hc, hc3] at h
        | timedOut =>
          simp [check_op, hc, Prod.mk.injEq, Except.ok.injEq] at h
          obtain ⟨h1, h2⟩ := h
          subst h1
          subst h2
          exact ⟨rfl, [], by simp⟩

theorem check_op_error_kinds {n : Needle} {st st' : StreamState} {err : EngineError}
    (h : check_op n st = (.error err, st')) : err = .ioFail ∨ err = .eofErr := by
  obtain ⟨la, ef, sc⟩ := st
  cases hc : needleCheck la ef n with
  | cons r rs => simp [check_op, hc] at h
  | nil =>
    cases ef with
    | true =>
      simp [check_op, hc, Prod.mk.injEq, Except.error.injEq] at h
      exact Or.inr h.1.symm
    | false =>
      cases sc with
      | nil => simp [check_op, hc] at h
      | cons p rest =>
        cases p with
        | bytes bs =>
          cases bs with
          | nil =>
            simp [check_op, hc, Prod.mk.injEq, Except.error.injEq] at h
            exact Or.inl h.1.symm
          | cons b bs2 =>
            cases hc2 : needleCheck (la ++ b :: bs2) false n with
            | cons r rs => simp [check_op, hc, hc2] at h
            | nil => simp [check_op, hc, hc2] at h
        | eofReached =>
          cases hc3 : needleCheck la true n with
          | cons r rs => simp [check_op, hc, hc3] at h
          | nil =>
            simp [check_op, hc, hc3, Prod.mk.injEq, Except.error.injEq] at h
            exact Or.inr h.1.symm
        | timedOut => simp [check_op, hc] at h

theorem check_op_single_pull (n : Needle) (st : StreamState) :
    st.script.length ≤ ((check_op n st).2).script.length + 1 ∧
      ((check_op n st).2).script.length ≤ st.script.length := by
  obtain ⟨la, ef, sc⟩ := st
  cases hc : needleCheck la ef n with
  | cons r rs => simp [check_op, hc]
  | nil =>
    cases ef with
    | true => simp [check_op, hc]
    | false =>
      cases sc with
      | nil => simp [check_op, hc]
      | cons p rest =>
        cases p with
        | bytes bs =>
          cases bs with
          | nil => simp [check_op, hc]
          | cons b bs2 =>
            cases hc2 : needleCheck (la ++ b :: bs2) false n with
            | cons r rs => simp [check_op, hc, hc2]
            | nil => simp [check_op, hc, hc2]
        | eofReached =>
          cases hc3 : needleCheck la true n with
          | cons r rs => simp [check_op, hc, hc3]
          | nil => simp [check_op, hc, hc3]
        | timedOut => simp [check_op, hc]

theorem check_op_no_timeout (n : Needle) (st : StreamState) :
    (check_op n st).1 ≠ .error .timeoutErr := by
  intro h
  rcases hr : check_op n st with ⟨r, st'⟩
  rw [hr] at h
  simp at h
  subst h
  rcases check_op_error_kinds hr with h | h <;> simp at h

/-! ## The specified properties -/

/-- C4: for every `Any([n1,...,nk])` needle and every buffer, each
sub-needle is evaluated on the same buffer and the returned match list is
the union of all sub-matches sorted by start position, ties broken by
sub-needle declaration order (stated as: the result is a permutation of
the declaration-ordered concatenation, it is sorted by start, and for
each start position the sub-list at that position is exactly the
declaration-ordered one); and on the buffer `"345\r\n"` left after a cat
session echoed `"Hello World"` then `"345"`, the needle
`Any(["123","345"])` produces `first() = b"345"`. -/
theorem any_needle_merge (ns : List Needle) (buf : List Nat) (e : Bool) :
    List.Perm (needleCheck buf e (.anyN ns)) (checkAll buf e ns) ∧
    (needleCheck buf e (.anyN ns)).Pairwise (fun a b => a.1 ≤ b.1) ∧
    (∀ k, (needleCheck buf e (.anyN ns)).filter (fun q => q.1 == k)
        = (checkAll buf e ns).filter (fun q => q.1 == k)) ∧
    Found.firstM ⟨asciiOf "345\r\n",
        needleCheck (asciiOf "345\r\n") false
          (.anyN [.bytes (asciiOf "123"), .bytes (asciiOf "345")])⟩ = asciiOf "345" := by
  refine ⟨?_, ?_, ?_, ?_⟩
  · simpa [needleCheck] using sortByStart_perm (checkAll buf e ns)
  · simpa [needleCheck] using pairwise_sortByStart (checkAll buf e ns)
  · intro k
    simpa [needleCheck] using filter_sortByStart (checkAll buf e ns) k
  · rfl

/-- C5: for a `Found` whose match list starts with `(s, e)`, `before()`
is `buf[0 .. s]`, `first()` is `buf[s .. e]`; `get(i)` returns the bytes
of the i-th match; and `is_empty()` holds iff the match list has zero
entries. -/
theorem found_accessors (f : Found) :
    (∀ s e rest, f.«matches» = (s, e) :: rest →
        f.before = byteSlice f.buf 0 s ∧ f.firstM = byteSlice f.buf s e) ∧
    (∀ i p, f.«matches».get? i = some p →
        f.get i = some (byteSlice f.buf p.1 p.2)) ∧
    (f.isEmptyF = true ↔ f.«matches» = []) := by
  refine ⟨?_, ?_, ?_⟩
  · intro s e rest h
    constructor
    · simp [Found.before, byteSlice, h]
    · simp [Found.firstM, byteSlice, h]
  · intro i p h
    unfold Found.get
    rw [h]
    rfl
  · simp [Found.isEmptyF, List.isEmpty_iff]

/-- C5 witness: the accessor laws evaluated on a concrete capture over
the buffer `"Hello World"` with a single match range `[3, 5)`. -/
theorem found_accessors_witness :
    Found.before ⟨asciiOf "Hello World", [(3, 5)]⟩ = byteSlice (asciiOf "Hello World") 0 3 ∧
    Found.firstM ⟨asciiOf "Hello World", [(3, 5)]⟩ = byteSlice (asciiOf "Hello World") 3 5 :=
  (found_accessors ⟨asciiOf "Hello World", [(3, 5)]⟩).1 3 5 [] rfl

/-- C6: `is_matched` performs no pulls and never consumes bytes, so two
consecutive `is_matched` calls on the same session return the same
boolean and leave the lookahead buffer (and the whole stream state)
unchanged. -/
theorem is_matched_idempotent (n : Needle) (st : StreamState) :
    (is_matched_op n st).2 = st ∧
    (is_matched_op n ((is_matched_op n st).2)).1 = (is_matched_op n st).1 ∧
    ((is_matched_op n st).2).lookahead = st.lookahead ∧
    ((is_matched_op n st).2).script = st.script :=
  ⟨rfl, rfl, rfl, rfl⟩

/-- C7: `send_line(s)` writes exactly the bytes of `s` followed by the
line ending — `\n` on unix, `\r\n` on windows — and flushes; no other
bytes are written. -/
theorem send_line_exact (windows : Bool) (s : List Nat) (w : WriteState) :
    (send_line windows s w).written = w.written ++ s ++ lineEnding windows ∧
    (send_line false s w).written = w.written ++ s ++ [10] ∧
    (send_line true s w).written = w.written ++ s ++ [13, 10] ∧
    (send_line windows s w).flushed = true := by
  refine ⟨rfl, ?_, ?_, rfl⟩ <;> simp [send_line, lineEnding]

/-- C1: consume-iff-match.  On a successful `expect` the returned
`Found` is non-empty and exactly `matches[0].end` bytes are consumed
(the lookahead becomes the matched buffer from position `matches[0].end`
onward, so that is what the next read observes); on an `expect` error
nothing is consumed (the lookahead is the original one possibly extended
by pulled bytes); on a `check` returning an empty `Found` nothing is
consumed, and on a `check` returning a non-empty `Found` exactly
`matches[0].end` bytes are consumed. -/
theorem consume_iff_match (n : Needle) (st : StreamState) :
    (∀ f st', expect_op n st = (.ok f, st') →
        f.«matches» ≠ [] ∧ st'.lookahead = f.buf.drop (cutOf f.«matches») ∧
          cutOf f.«matches» ≤ f.buf.length) ∧
    (∀ err st', expect_op n st = (.error err, st') →
        ∃ ext, st'.lookahead = st.lookahead ++ ext) ∧
    (∀ f st', check_op n st = (.ok f, st') →
        (f.«matches» = [] → st'.lookahead = f.buf ∧ ∃ ext, f.buf = st.lookahead ++ ext) ∧
        (f.«matches» ≠ [] → st'.lookahead = f.buf.drop (cutOf f.«matches») ∧
          cutOf f.«matches» ≤ f.buf.length)) := by
  refine ⟨?_, ?_, ?_⟩
  · intro f st' h
    exact expectLoop_ok h
  · intro err st' h
    exact expectLoop_error_extends h
  · intro f st' h
    exact ⟨fun he => check_op_ok_empty h he, fun hne => check_op_ok_nonempty h hne⟩

/-- C1 witness: a `check` for `"Hello"` on the lookahead
`"Hello World"` matches `[0, 5)` and leaves exactly `" World"`, the
bytes from position 5 onward. -/
theorem consume_iff_match_witness :
    (⟨asciiOf " World", false, []⟩ : StreamState).lookahead
        = (asciiOf "Hello World").drop (cutOf [(0, 5)]) ∧
      cutOf [(0, 5)] ≤ (asciiOf "Hello World").length :=
  ((consume_iff_match (.bytes (asciiOf "Hello")) ⟨asciiOf "Hello World", false, []⟩).2.2
      ⟨asciiOf "Hello World", [(0, 5)]⟩ ⟨asciiOf " World", false, []⟩ rfl).2
    (by decide)

/-- C2: `check` makes at most a single pull attempt (the pull script
shrinks by at most one entry), never returns an `ExpectTimeout` error,
surfaces only IO and Eof as errors, consumes nothing when it returns an
empty `Found`, and `check(Eof)` against a still-running child (a pull
that merely times out) returns an empty `Found`. -/
theorem check_single_attempt (n : Needle) (st : StreamState) :
    (check_op n st).1 ≠ .error .timeoutErr ∧
    (st.script.length ≤ ((check_op n st).2).script.length + 1 ∧
      ((check_op n st).2).script.length ≤ st.script.length) ∧
    (∀ err st', check_op n st = (.error err, st') → err = .ioFail ∨ err = .eofErr) ∧
    (∀ f st', check_op n st = (.ok f, st') → f.isEmptyF = true →
        st'.lookahead = f.buf) ∧
    check_op .eofN ⟨[], false, [.timedOut]⟩ = (.ok ⟨[], []⟩, ⟨[], false, []⟩) := by
  refine ⟨check_op_no_timeout n st, check_op_single_pull n st, ?_, ?_, rfl⟩
  · intro err st' h
    exact check_op_error_kinds h
  · intro f st' h hemp
    have he : f.«matches» = [] := by
      simpa [Found.isEmptyF, List.isEmpty_iff] using hemp
    exact (check_op_ok_empty h he).1

/-- C2 witness: a `check` for the absent needle `"ZZ"` on the lookahead
`"ab"` (with nothing left to pull) returns an empty `Found` and leaves
the lookahead untouched. -/
theorem check_single_attempt_witness :
    ((⟨asciiOf "ab", false, []⟩ : StreamState) : StreamState).lookahead = asciiOf "ab" :=
  (check_single_attempt (.bytes (asciiOf "ZZ")) ⟨asciiOf "ab", false, []⟩).2.2.2.1
    ⟨asciiOf "ab", []⟩ ⟨asciiOf "ab", false, []⟩ rfl rfl

/-- C3: `expect` returns `Err(Eof)` only when end of file was observed
(the eof flag is set in the final state) and the needle, re-checked with
the eof flag true on the remaining buffer, still produces no match; in
particular `expect(Eof)` never returns `Err(Eof)`, because the Eof
needle matches the entire remaining buffer once the flag is set. -/
theorem expect_eof_error_needs_no_match (n : Needle) (st : StreamState) :
    (∀ st', expect_op n st = (.error .eofErr, st') →
        st'.eofFlag = true ∧ needleCheck st'.lookahead true n = []) ∧
    (∀ st2 : StreamState, (expect_op .eofN st2).1 ≠ .error .eofErr) := by
  constructor
  · intro st' h
    exact expectLoop_eofErr h
  · intro st2 hcontra
    rcases hr : expect_op .eofN st2 with ⟨r, stf⟩
    rw [hr] at hcontra
    simp only at hcontra
    subst hcontra
    have h2 := (expectLoop_eofErr hr).2
    simp [needleCheck] at h2

/-- C3 witness: expecting the absent needle `"xyz"` over a stream that
reaches end of file after `"ab"` fails with Eof, and indeed the needle
has no match on the final buffer even with the eof flag set. -/
theorem expect_eof_error_needs_no_match_witness :
    ((⟨asciiOf "ab", true, []⟩ : StreamState).eofFlag = true ∧
      needleCheck (⟨asciiOf "ab", true, []⟩ : StreamState).lookahead true
        (.bytes (asciiOf "xyz")) = []) :=
  (expect_eof_error_needs_no_match (.bytes (asciiOf "xyz"))
      ⟨asciiOf "ab", false, [.eofReached]⟩).1
    ⟨asciiOf "ab", true, []⟩ rfl

/-- C8: `send_control` parses its input into a control code — accepting
a char, a string (single letter, caret form, or a name such as
"EndOfText"), or the enum directly — and on success writes exactly the
single ASCII control byte of that code (a byte at most 31); invalid
input yields a parse error.  Concretely, `'C'`, `'c'`, `"^C"` and
`"EndOfText"` all parse to byte 3, while `"hello"` is rejected. -/
theorem send_control_parses (inp : ControlInput) (w : WriteState) :
    (∀ b, tryIntoControlCode inp = some b →
        b ≤ 31 ∧
          send_control inp w = (.ok (), ⟨w.written ++ [b], w.flushed⟩)) ∧
    (tryIntoControlCode inp = none → send_control inp w = (.error (), w)) ∧
    tryIntoControlCode (.ch (Char.toNat 'C')) = some 3 ∧
    tryIntoControlCode (.ch (Char.toNat 'c')) = some 3 ∧
    tryIntoControlCode (.str (asciiOf "^C")) = some 3 ∧
    tryIntoControlCode (.str (asciiOf "EndOfText")) = some 3 ∧
    tryIntoControlCode (.str (asciiOf "hello")) = none := by
  refine ⟨?_, ?_, by decide, by decide, by decide, by decide, by decide⟩
  · intro b h
    exact ⟨tryInto_le31 h, by simp [send_control, h]⟩
  · intro h
    simp [send_control, h]

/-- C8 witness: sending control `'C'` writes exactly the single byte 3
(ETX) after an empty history. -/
theorem send_control_parses_witness :
    (3 : Nat) ≤ 31 ∧
      send_control (.ch (Char.toNat 'C')) ⟨[], false⟩ = (.ok (), ⟨[] ++ [3], false⟩) :=
  (send_control_parses (.ch (Char.toNat 'C')) ⟨[], false⟩).1 3 rfl

/-- C10: `send_control` is atomic on parse failure — when the conversion
fails it returns an error with the written stream unchanged, and only
after parsing succeeds does it write, and then exactly one byte. -/
theorem send_control_atomic (inp : ControlInput) (w : WriteState) :
    ((send_control inp w).1 = .error () → (send_control inp w).2 = w) ∧
    (∀ b, tryIntoControlCode inp = some b →
        ((send_control inp w).2).written = w.written ++ [b] ∧
          ((send_control inp w).2).written.length = w.written.length + 1) := by
  cases h : tryIntoControlCode inp with
  | none =>
    refine ⟨fun _ => by simp [send_control, h], ?_⟩
    intro b hb
    simp at hb
  | some b0 =>
    refine ⟨fun hcontra => ?_, ?_⟩
    · simp [send_control, h] at hcontra
    · intro b hb
      injection hb with hbb
      subst hbb
      constructor
      · simp [send_control, h]
      · simp [send_control, h]

/-- C10 witness: the unparsable input `"hello"` produces an error and
leaves the written stream exactly as it was. -/
theorem send_control_atomic_witness :
    (send_control (.str (asciiOf "hello")) ⟨asciiOf "x", true⟩).2
      = (⟨asciiOf "x", true⟩ : WriteState) :=
  (send_control_atomic (.str (asciiOf "hello")) ⟨asciiOf "x", true⟩).1 rfl

/-- C9: the sync and async session flavors have identical external
semantics.  The sync operations (modelled from the spec, the sync source
not being under src/) agree pointwise with the async embedding from
src/src/session/async_session.rs on send, send_line, expect, check,
read, write, fill_buf and consume; and the two `PtySession` dispatch
layers of src/src/session/pty_session.rs produce the same results and
the same observable session state on corresponding arms. -/
theorem sync_async_equiv :
    (∀ s w, sync_send s w = send s w) ∧
    (∀ win s w, sync_send_line win s w = send_line win s w) ∧
    (∀ n st, sync_expect_op n st = expect_op n st) ∧
    (∀ n st, sync_check_op n st = check_op n st) ∧
    (∀ k st, sync_read k st = readA k st) ∧
    (∀ bs w, sync_writeBytes bs w = writeBytes bs w) ∧
    (∀ st, sync_fillBuf st = fillBufA st) ∧
    (∀ amt st, sync_consume amt st = consumeA amt st) ∧
    (∀ p bs, (PtySessionSync.sendP p bs).stateOf
        = (PtySessionAsync.sendP (toAsync p) bs).stateOf) ∧
    (∀ win p bs, (PtySessionSync.sendLineP win p bs).stateOf
        = (PtySessionAsync.sendLineP win (toAsync p) bs).stateOf) ∧
    (∀ n p, (PtySessionSync.expectP n p).1 = (PtySessionAsync.expectP n (toAsync p)).1 ∧
        ((PtySessionSync.expectP n p).2).stateOf
          = ((PtySessionAsync.expectP n (toAsync p)).2).stateOf) ∧
    (∀ k p, (PtySessionSync.readP k p).1 = (PtySessionAsync.readP k (toAsync p)).1 ∧
        ((PtySessionSync.readP k p).2).stateOf
          = ((PtySessionAsync.readP k (toAsync p)).2).stateOf) ∧
    (∀ p, (PtySessionSync.fillBufP p).1 = (PtySessionAsync.fillBufP (toAsync p)).1 ∧
        ((PtySessionSync.fillBufP p).2).stateOf
          = ((PtySessionAsync.fillBufP (toAsync p)).2).stateOf) ∧
    (∀ amt p, (PtySessionSync.consumeP amt p).stateOf
        = (PtySessionAsync.consumeP amt (toAsync p)).stateOf) ∧
    (∀ p bs, (PtySessionSync.writeP p bs).stateOf
        = (PtySessionAsync.writeP (toAsync p) bs).stateOf) := by
  have hexp : ∀ n st, sync_expect_op n st = expect_op n st := by
    intro n st
    unfold sync_expect_op expect_op
    exact sync_expectLoop_eq n st.script st.lookahead st.eofFlag
  have hline : ∀ win s w, sync_send_line win s w = send_line win s w := by
    intro win s w
    simp [sync_send_line, send_line]
  refine ⟨fun s w => rfl, hline, hexp, fun n st => rfl, fun k st => rfl, fun bs w => rfl,
      fun st => rfl, fun amt st => rfl, ?_, ?_, ?_, ?_, ?_, ?_, ?_⟩
  · intro p bs
    cases p <;> rfl
  · intro win p bs
    cases p <;>
      simp [PtySessionSync.sendLineP, PtySessionAsync.sendLineP, toAsync,
        PtySessionSync.stateOf, PtySessionAsync.stateOf, hline]
  · intro n p
    cases p <;>
      simp [PtySessionSync.expectP, PtySessionAsync.expectP, toAsync,
        PtySessionSync.stateOf, PtySessionAsync.stateOf, hexp]
  · intro k p
    cases p <;> exact ⟨rfl, rfl⟩
  · intro p
    cases p <;> exact ⟨rfl, rfl⟩
  · intro amt p
    cases p <;> rfl
  · intro p bs
    cases p <;> rfl

end Expectrl
